import Mathlib

/-!
Verification of the code-event distribution and sampling-profiler subsystem
(src/logging/log.cc) against its natural-language specification.

Shallow embedding: each C++ component is translated into executable Lean
definitions (byte buffers as lists of byte values, the circular sample
buffer as an explicit state record stepped by operation traces, file
output as lists of written lines or bytes), and the spec's claims are
proved or refuted about those definitions.
-/

namespace Spec2Proof

/-! ## Name Buffer (CodeEventLogger::NameBuffer)

The buffer is a fixed 4096-byte array together with a write position
utf8_pos_.  Only the first utf8_pos_ bytes are ever read back (get/size),
so the state is modelled as the list of bytes written so far; its length
is utf8_pos_. -/

namespace NameBuffer

/-- kUtf8BufferSize in CodeEventLogger::NameBuffer. -/
def kUtf8BufferSize : Nat := 4096

/-- Buffer contents: utf8_buffer_[0 .. utf8_pos_); length = utf8_pos_. -/
abbrev Buf := List Nat

/-- AppendBytes(const char* bytes, int size):
size = min(size, kUtf8BufferSize - utf8_pos_); MemCopy; utf8_pos_ += size. -/
def appendBytes (s : Buf) (bytes : List Nat) : Buf :=
  s ++ bytes.take (kUtf8BufferSize - s.length)

/-- AppendByte(char c): if (utf8_pos_ >= kUtf8BufferSize) return; write c. -/
def appendByte (s : Buf) (c : Nat) : Buf :=
  if s.length ≥ kUtf8BufferSize then s else s ++ [c]

/-- Bytes produced by SNPrintF(buffer, "%d", n) for a C int value n
(decimal rendering, with a leading '-' (byte 45) when negative). -/
def decRender (n : Int) : List Nat :=
  if n < 0 then 45 :: (Nat.toDigits 10 n.natAbs).map Char.toNat
  else (Nat.toDigits 10 n.toNat).map Char.toNat

/-- Bytes produced by SNPrintF(buffer, "%x", n) for a uint32_t value n. -/
def hexRender (n : Nat) : List Nat :=
  (Nat.toDigits 16 (n % 2 ^ 32)).map Char.toNat

/-- AppendInt(int n): space = kUtf8BufferSize - utf8_pos_; if (space <= 0)
return; size = SNPrintF(buffer(space), "%d", n) — V8's SNPrintF returns -1
when the rendering (plus NUL) does not fit in space, i.e. succeeds exactly
when the rendered length is < space; advance utf8_pos_ only when
size > 0 and utf8_pos_ + size <= kUtf8BufferSize. -/
def appendInt (s : Buf) (n : Int) : Buf :=
  if (kUtf8BufferSize : Int) - (s.length : Int) ≤ 0 then s
  else if (((decRender n).length : Int) <
        (kUtf8BufferSize : Int) - (s.length : Int) ∧
        0 < (decRender n).length ∧
        s.length + (decRender n).length ≤ kUtf8BufferSize) then
    s ++ decRender n
  else s

/-- AppendHex(uint32_t n): same structure as AppendInt with "%x". -/
def appendHex (s : Buf) (n : Nat) : Buf :=
  if (kUtf8BufferSize : Int) - (s.length : Int) ≤ 0 then s
  else if (((hexRender n).length : Int) <
        (kUtf8BufferSize : Int) - (s.length : Int) ∧
        0 < (hexRender n).length ∧
        s.length + (hexRender n).length ≤ kUtf8BufferSize) then
    s ++ hexRender n
  else s

/-- AppendString(String str): if null return, else append the ToCString
bytes.  The byte contents of the string is the operation's argument. -/
def appendString (s : Buf) (strBytes : Option (List Nat)) : Buf :=
  match strBytes with
  | none => s
  | some bs => appendBytes s bs

/-- AppendName(Name name): a string name appends its bytes; a symbol
appends symbol("<description>" hash <hex>) with the description part
present only when the description is not undefined. -/
def appendName (s : Buf) (strName : Option (List Nat))
    (descr : Option (List Nat)) (hash : Nat) : Buf :=
  match strName with
  | some bs => appendString s (some bs)
  | none =>
    let s1 := appendBytes s [115, 121, 109, 98, 111, 108, 40]
    let s2 :=
      match descr with
      | some d =>
        appendBytes (appendString (appendBytes s1 [34]) (some d)) [34, 32]
      | none => s1
    appendByte (appendHex (appendBytes s2 [104, 97, 115, 104, 32]) hash) 41

/-- Init(tag): Reset(); AppendBytes(kCodeTagNames[tag]); AppendByte(':').
The tag-name string is the operation's argument. -/
def init (tagName : List Nat) : Buf :=
  appendByte (appendBytes [] tagName) 58

/-- One NameBuffer operation, with arbitrary arguments. -/
inductive Op where
  | initOp (tagName : List Nat)
  | appendNameOp (strName : Option (List Nat)) (descr : Option (List Nat))
      (hash : Nat)
  | appendStringOp (strBytes : Option (List Nat))
  | appendBytesOp (bytes : List Nat)
  | appendByteOp (c : Nat)
  | appendIntOp (n : Int)
  | appendHexOp (n : Nat)

/-- Apply one operation to the buffer state. -/
def step (s : Buf) : Op → Buf
  | .initOp tagName => init tagName
  | .appendNameOp strName descr hash => appendName s strName descr hash
  | .appendStringOp strBytes => appendString s strBytes
  | .appendBytesOp bytes => appendBytes s bytes
  | .appendByteOp c => appendByte s c
  | .appendIntOp n => appendInt s n
  | .appendHexOp n => appendHex s n

/-- Run a sequence of operations starting from the freshly reset buffer. -/
def run (ops : List Op) : Buf := ops.foldl step []

end NameBuffer

/-! ### Placeholder: further component models are defined below, before the
lemma and theorem sections. -/

/-! ## Profiler (circular sample buffer, producer Insert / consumer Remove)

The Profiler thread shares a 128-slot ring of TickSamples with the
sampler.  head_ is producer-owned, tail_ consumer-owned, overflow_ a
flag, buffer_semaphore_ a counting semaphore, running_ the shutdown
flag.  The single-producer/single-consumer execution is modelled as a
sequential trace of Insert and Remove operations on an explicit state
record; a Remove is enabled (the semaphore Wait returns) only when the
semaphore count is positive. -/

namespace Profiler

/-- kBufferSize in class Profiler. -/
def kBufferSize : Nat := 128

/-- TickSample contents are opaque to the buffer logic; a sample is
identified by a value. -/
abbrev Sample := Nat

/-- Profiler state: buffer_, head_, tail_, overflow_, the counting
semaphore value of buffer_semaphore_, and running_. -/
structure State where
  buffer : Nat → Sample
  head : Nat
  tail : Nat
  overflow : Bool
  sem : Nat
  running : Bool

/-- Succ(index) = (index + 1) % kBufferSize. -/
def succIdx (index : Nat) : Nat := (index + 1) % kBufferSize

/-- Profiler constructor: head_ = 0, tail_ = 0, overflow_ = false,
buffer_semaphore_(0), running_ = 0; buffer storage is default
initialized. -/
def initState : State :=
  { buffer := fun _ => 0, head := 0, tail := 0, overflow := false,
    sem := 0, running := false }

/-- Insert(sample): if (Succ(head_) == tail_) overflow_ = true; else
buffer_[head_] = *sample; head_ = Succ(head_); Signal(). -/
def insert (s : State) (x : Sample) : State :=
  if succIdx s.head = s.tail then { s with overflow := true }
  else
    { s with
      buffer := fun i => if i = s.head then x else s.buffer i,
      head := succIdx s.head,
      sem := s.sem + 1 }

/-- Remove(sample): buffer_semaphore_.Wait() — blocks unless the count
is positive, hence none when no element is pending; then
*sample = buffer_[tail_]; result = overflow_; tail_ = Succ(tail_);
overflow_ = false; return result.  Yields the new state, the sample read
at tail_ and the reported overflow value. -/
def removeOp (s : State) : Option (State × Sample × Bool) :=
  if s.sem = 0 then none
  else
    some
      ({ s with
          tail := succIdx s.tail
          overflow := false
          sem := s.sem - 1 },
        s.buffer s.tail, s.overflow)

/-- The full-buffer condition of Insert: Succ(head_) == tail_. -/
def fullState (s : State) : Prop := succIdx s.head = s.tail

instance (s : State) : Decidable (fullState s) := by
  unfold fullState; infer_instance

/-- One operation of the producer (Insert of a sample) or the consumer
(Remove). -/
inductive Op where
  | ins (x : Sample)
  | rem
deriving DecidableEq

/-- Apply one operation to the state.  A Remove that would block (no
pending element) is excluded by trace validity and leaves the state
unchanged. -/
def stepOp (s : State) : Op → State
  | .ins x => insert s x
  | .rem =>
    match removeOp s with
    | some (s1, _, _) => s1
    | none => s

/-- A trace is valid from state s when every Remove in it is performed
with a positive semaphore count (the consumer only runs Remove after the
semaphore Wait returns). -/
def validFrom (s : State) : List Op → Bool
  | [] => true
  | .ins x :: ops => validFrom (insert s x) ops
  | .rem :: ops => (s.sem ≠ 0 : Bool) && validFrom (stepOp s .rem) ops

/-- Run a trace from the freshly constructed profiler. -/
def runOps (ops : List Op) : State := ops.foldl stepOp initState

/-- A trace is valid when it is valid from the initial state. -/
def valid (ops : List Op) : Bool := validFrom initState ops

/-- The (sample, reported-overflow) results of the successive Removes in
a trace, in the order the consumer obtains them. -/
def outsFrom (s : State) : List Op → List (Sample × Bool)
  | [] => []
  | .ins x :: ops => outsFrom (insert s x) ops
  | .rem :: ops =>
    match removeOp s with
    | some (s1, x, b) => (x, b) :: outsFrom s1 ops
    | none => outsFrom s ops

/-- Remove results of a trace from the initial state.  The consumer's
Run loop (Profiler::Run) turns exactly this list, in this order, into
TickEvent records handed to the broadcast registry. -/
def outs (ops : List Op) : List (Sample × Bool) := outsFrom initState ops

/-- Specification-side queue semantics: the samples successfully
enqueued (not dropped), given the number of samples currently pending.
An insert is kept exactly when fewer than kBufferSize - 1 samples are
pending. -/
def keptInsertsAux : Nat → List Op → List Sample
  | _, [] => []
  | p, .ins x :: ops =>
    if p = kBufferSize - 1 then keptInsertsAux p ops
    else x :: keptInsertsAux (p + 1) ops
  | p, .rem :: ops => keptInsertsAux (p - 1) ops

/-- Samples of a trace that the buffer accepts, in push order. -/
def keptInserts (ops : List Op) : List Sample := keptInsertsAux 0 ops

/-- Specification-side queue contents after a trace, starting from
pending queue q. -/
def queueAux (q : List Sample) : List Op → List Sample
  | [] => q
  | .ins x :: ops =>
    if q.length = kBufferSize - 1 then queueAux q ops
    else queueAux (q ++ [x]) ops
  | .rem :: ops => queueAux (q.drop 1) ops

/-- Number of unread samples held by the ring: the distance from tail_
to head_ modulo kBufferSize. -/
def unread (s : State) : Nat :=
  (s.head + kBufferSize - s.tail) % kBufferSize

/-- Correspondence between a machine state and the pending queue q:
indices are in range, the semaphore counts the pending samples, at most
kBufferSize - 1 samples are pending, head_ is tail_ plus the pending
count modulo kBufferSize, and the ring slots from tail_ hold q in
order. -/
structure Inv (s : State) (q : List Sample) : Prop where
  head_lt : s.head < kBufferSize
  tail_lt : s.tail < kBufferSize
  sem_eq : s.sem = q.length
  len_le : q.length ≤ kBufferSize - 1
  head_eq : s.head = (s.tail + q.length) % kBufferSize
  content : ∀ i, i < q.length →
    s.buffer ((s.tail + i) % kBufferSize) = q.getD i 0

/-- Profiler::Disengage, up to the Join: clear running_, then push one
sample through the ordinary Insert. -/
def disengagePush (s : State) (sentinel : Sample) : State :=
  insert { s with running := false } sentinel

/-- The consumer at its next Remove call (Profiler::Run is either
blocked in Remove or about to call it): if the Remove would block
forever the consumer never exits (none); otherwise, after Remove
returns, the loop condition running_ is checked — when it is false the
loop exits and the list of Tick events still delivered is returned
(none of the remaining buffered samples is logged).  A state whose
running_ flag is still set would continue looping and is returned as
none here. -/
def consumerFinishTicks (s : State) : Option (List Sample) :=
  match removeOp s with
  | none => none
  | some (s1, _, _) => if s1.running then none else some []

/-- The concrete trace of 127 producer Inserts that fills the buffer. -/
def full127 : List Op := (List.range 127).map Op.ins

/-- There is an Insert in the trace attempted while the buffer was full
(in the machine state reached by the operations before it) that no
Remove follows. -/
def droppedSinceLastRemove (ops : List Op) : Prop :=
  ∃ k x, ops[k]? = some (Op.ins x) ∧ fullState (runOps (ops.take k)) ∧
    ∀ j, k < j → ops[j]? ≠ some Op.rem

/-- The body of Profiler::Run as seen by the broadcast registry while
the profiler is engaged: each (sample, overflow) pair obtained from
Remove is logged as one TickEvent before the next Remove, so with
running_ held the registry receives the pairs one by one in Remove
order; with running_ cleared the loop exits and delivers nothing. -/
def runLoopDeliver : Bool → List (Sample × Bool) → List (Sample × Bool)
  | false, _ => []
  | true, [] => []
  | true, p :: ps => p :: runLoopDeliver true ps

end Profiler

/-! ## Linux perf basic logger (LinuxPerfBasicLogger) -/

namespace PerfBasic

/-- Modelled from the spec: the CodeKind enumeration of
src/objects/code-kind.h is not under src/.  Kinds as in that header:
bytecode handler, testing, builtin, regexp, the WebAssembly kinds, and
the JavaScript-function tiers (interpreted, baseline, turboprop,
turbofan). -/
inductive CodeKind where
  | BYTECODE_HANDLER
  | FOR_TESTING
  | BUILTIN
  | REGEXP
  | WASM_FUNCTION
  | WASM_TO_CAPI_FUNCTION
  | WASM_TO_JS_FUNCTION
  | JS_TO_WASM_FUNCTION
  | JS_TO_JS_FUNCTION
  | C_WASM_ENTRY
  | INTERPRETED_FUNCTION
  | BASELINE
  | TURBOPROP
  | TURBOFAN
deriving DecidableEq

/-- Modelled from the spec: CodeKindIsJSFunction of
src/objects/code-kind.h (not under src/) holds exactly for the
JavaScript-function tiers — the code of a user function. -/
def CodeKindIsJSFunction : CodeKind → Bool
  | .INTERPRETED_FUNCTION => true
  | .BASELINE => true
  | .TURBOPROP => true
  | .TURBOFAN => true
  | _ => false

/-- Modelled from the spec: CodeKindIsBuiltinOrJSFunction of
src/objects/code-kind.h (not under src/) holds for BUILTIN and for the
JavaScript-function kinds. -/
def CodeKindIsBuiltinOrJSFunction (k : CodeKind) : Bool :=
  (k = CodeKind.BUILTIN : Bool) || CodeKindIsJSFunction k

/-- One perf-map line "<hex address> <hex size> <name>\n" as produced by
WriteLogRecordedBuffer. -/
structure PerfLine where
  address : Nat
  size : Nat
  name : List Nat
deriving DecidableEq

/-- LinuxPerfBasicLogger::LogRecordedBuffer: when
FLAG_perf_basic_prof_only_functions is set and
CodeKindIsBuiltinOrJSFunction(code->kind()) holds, return without
writing; otherwise WriteLogRecordedBuffer appends the map line for the
code object. -/
def logRecordedBuffer (onlyFunctions : Bool) (kind : CodeKind)
    (address size : Nat) (name : List Nat) (file : List PerfLine) :
    List PerfLine :=
  if onlyFunctions && CodeKindIsBuiltinOrJSFunction kind then file
  else file ++ [⟨address, size, name⟩]

end PerfBasic

/-! ## Perf-map file reference counting (LinuxPerfBasicLogger
constructor and destructor) -/

namespace PerfMap

/-- The process-wide static state protected by file_mutex_:
reference_count_ and whether perf_output_handle_ is non-null. -/
structure FileState where
  referenceCount : Nat
  handleOpen : Bool
deriving DecidableEq

/-- The static initial state: reference_count_ = 0,
perf_output_handle_ = nullptr. -/
def fileInit : FileState := { referenceCount := 0, handleOpen := false }

/-- LinuxPerfBasicLogger::LinuxPerfBasicLogger: under the lock,
reference_count_++; if it is now 1, open the perf map file. -/
def ctorStep (g : FileState) : FileState :=
  if g.referenceCount + 1 = 1 then
    { referenceCount := g.referenceCount + 1, handleOpen := true }
  else { g with referenceCount := g.referenceCount + 1 }

/-- LinuxPerfBasicLogger::~LinuxPerfBasicLogger: under the lock,
reference_count_--; if it is now 0, close the file and null the
handle. -/
def dtorStep (g : FileState) : FileState :=
  if g.referenceCount - 1 = 0 then
    { referenceCount := g.referenceCount - 1, handleOpen := false }
  else { g with referenceCount := g.referenceCount - 1 }

/-- A construction or destruction of a LinuxPerfBasicLogger instance. -/
inductive LifeOp where
  | ctor
  | dtor
deriving DecidableEq

/-- Apply one lifecycle operation. -/
def lifeStep (g : FileState) : LifeOp → FileState
  | .ctor => ctorStep g
  | .dtor => dtorStep g

/-- A lifecycle sequence is well formed when every destruction destroys
a previously constructed, still-live instance. -/
def lifeValidFrom (live : Nat) : List LifeOp → Bool
  | [] => true
  | .ctor :: ops => lifeValidFrom (live + 1) ops
  | .dtor :: ops => (live ≠ 0 : Bool) && lifeValidFrom (live - 1) ops

/-- Validity from zero live instances. -/
def lifeValid (ops : List LifeOp) : Bool := lifeValidFrom 0 ops

/-- Run a lifecycle sequence from the static initial state. -/
def lifeRun (ops : List LifeOp) : FileState := ops.foldl lifeStep fileInit

end PerfMap

/-! ## File-backed text log (V8FileLogger operations through
MSG_BUILDER) -/

namespace FileLog

/-- The shared text log: whether logging is currently enabled and the
lines written so far. -/
structure LogState where
  isLogging : Bool
  lines : List (List Nat)
deriving DecidableEq

/-- Modelled from the spec: LogFile::NewMessageBuilder
(src/logging/log-file.cc is not under src/) returns an empty/null
builder when logging is currently disabled, otherwise a builder holding
the log mutex. -/
def newMessageBuilder (s : LogState) : Option Unit :=
  if s.isLogging then some () else none

/-- The field separator written by kNext (LogSeparator), a comma. -/
def kNextByte : Nat := 44

/-- V8FileLogger::UncheckedStringEvent: MSG_BUILDER() — return when the
builder is null — then msg << name << kNext << value and
WriteToLogFile. -/
def uncheckedStringEvent (s : LogState) (name value : List Nat) :
    LogState :=
  match newMessageBuilder s with
  | none => s
  | some _ =>
    { s with lines := s.lines ++ [name ++ kNextByte :: value] }

/-- V8FileLogger::ProfilerBeginEvent: MSG_BUILDER() then
msg << "profiler" << kNext << "begin" << kNext << interval. -/
def profilerBeginEvent (s : LogState) (interval : Nat) : LogState :=
  match newMessageBuilder s with
  | none => s
  | some _ =>
    { s with
        lines := s.lines ++
          [[112, 114, 111, 102, 105, 108, 101, 114] ++
            kNextByte :: [98, 101, 103, 105, 110] ++
            kNextByte :: NameBuffer.decRender interval] }

/-- V8FileLogger::NewEvent: if (!FLAG_log) return; MSG_BUILDER() then
msg << "new" << kNext << name << kNext << object << kNext << size. -/
def newEvent (s : LogState) (flagLog : Bool) (name : List Nat)
    (object size : Nat) : LogState :=
  if !flagLog then s
  else
    match newMessageBuilder s with
    | none => s
    | some _ =>
      { s with
          lines := s.lines ++
            [[110, 101, 119] ++ kNextByte :: name ++
              kNextByte :: NameBuffer.hexRender object ++
              kNextByte :: NameBuffer.decRender size] }

end FileLog

/-! ## Binary low-level log (LowLevelLogger)

Byte-exact model of the .ll file on the x64 target: little-endian
integers, C struct layout with alignment padding (CodeCreateStruct
{int32 name_size; Address code_address; int32 code_size} has size 24
with 4 padding bytes after name_size and 4 at the end; CodeMoveStruct
{Address from_address; Address to_address} has size 16).  LogWriteStruct
writes the tag character followed by the sizeof(s) struct bytes;
padding bytes are modelled as zero. -/

namespace LowLevel

/-- Little-endian byte encoding of n in w bytes. -/
def leBytes : Nat → Nat → List Nat
  | 0, _ => []
  | w + 1, n => n % 256 :: leBytes w (n / 256)

/-- Value of a little-endian byte list. -/
def leDecode : List Nat → Nat
  | [] => 0
  | b :: bs => b + 256 * leDecode bs

/-- The byte image fwrite produces for a CodeCreateStruct: name_size,
padding, code_address, code_size, trailing padding. -/
def codeCreateStructBytes (nameSize addr codeSize : Nat) : List Nat :=
  leBytes 4 nameSize ++ [0, 0, 0, 0] ++ leBytes 8 addr ++
    leBytes 4 codeSize ++ [0, 0, 0, 0]

/-- The byte image fwrite produces for a CodeMoveStruct. -/
def codeMoveStructBytes (fromAddr toAddr : Nat) : List Nat :=
  leBytes 8 fromAddr ++ leBytes 8 toAddr

/-- LogCodeInfo on the x64 target: LogWriteBytes(arch, sizeof(arch))
writes the architecture name including its NUL terminator. -/
def archBytes : List Nat := [120, 54, 52, 0]

/-- The file contents right after the LowLevelLogger constructor. -/
def initFile : List Nat := archBytes

/-- LowLevelLogger::LogRecordedBuffer: LogWriteStruct of the 'C'-tagged
CodeCreateStruct (name_size = length, code_address, code_size =
InstructionSize), then LogWriteBytes(name, length), then the raw
instruction bytes of the code object. -/
def writeCodeCreate (file : List Nat) (addr : Nat)
    (name instr : List Nat) : List Nat :=
  file ++ 67 :: (codeCreateStructBytes name.length addr instr.length ++
    name ++ instr)

/-- LowLevelLogger::CodeMoveEvent: LogWriteStruct of the 'M'-tagged
CodeMoveStruct. -/
def writeCodeMove (file : List Nat) (fromAddr toAddr : Nat) : List Nat :=
  file ++ 77 :: codeMoveStructBytes fromAddr toAddr

/-- LowLevelLogger::CodeMovingGCEvent: the single tag byte 'G'. -/
def writeCodeMovingGC (file : List Nat) : List Nat := file ++ [71]

/-- A structured record parsed back from the binary stream. -/
inductive LLRecord where
  | create (address size : Nat) (name : List Nat) (instr : List Nat)
  | move (fromAddr toAddr : Nat)
  | gcMoving
deriving DecidableEq

/-- Split the leading null-terminated architecture string from the
stream. -/
def parseArch : List Nat → Option (List Nat × List Nat)
  | [] => none
  | 0 :: rest => some ([], rest)
  | b :: rest =>
    match parseArch rest with
    | none => none
    | some (a, r) => some (b :: a, r)

/-- Parse the stream of tagged records, with fuel bounding the number of
records: 'C' consumes the 24 CodeCreateStruct bytes, then name_size name
bytes and code_size instruction bytes; 'M' consumes the 16
CodeMoveStruct bytes; 'G' consumes only its tag. -/
def decodeRecords : Nat → List Nat → Option (List LLRecord)
  | _, [] => some []
  | 0, _ => none
  | fuel + 1, 71 :: rest =>
    match decodeRecords fuel rest with
    | none => none
    | some rs => some (LLRecord.gcMoving :: rs)
  | fuel + 1, 77 :: f0 :: f1 :: f2 :: f3 :: f4 :: f5 :: f6 :: f7 ::
      t0 :: t1 :: t2 :: t3 :: t4 :: t5 :: t6 :: t7 :: rest =>
    match decodeRecords fuel rest with
    | none => none
    | some rs =>
      some (LLRecord.move (leDecode [f0, f1, f2, f3, f4, f5, f6, f7])
        (leDecode [t0, t1, t2, t3, t4, t5, t6, t7]) :: rs)
  | fuel + 1, 67 :: n0 :: n1 :: n2 :: n3 :: _p0 :: _p1 :: _p2 :: _p3 ::
      a0 :: a1 :: a2 :: a3 :: a4 :: a5 :: a6 :: a7 ::
      s0 :: s1 :: s2 :: s3 :: _q0 :: _q1 :: _q2 :: _q3 :: rest =>
    if leDecode [n0, n1, n2, n3] + leDecode [s0, s1, s2, s3] ≤
        rest.length then
      match decodeRecords fuel
          (rest.drop (leDecode [n0, n1, n2, n3] +
            leDecode [s0, s1, s2, s3])) with
      | none => none
      | some rs =>
        some (LLRecord.create
          (leDecode [a0, a1, a2, a3, a4, a5, a6, a7])
          (leDecode [s0, s1, s2, s3])
          (rest.take (leDecode [n0, n1, n2, n3]))
          ((rest.drop (leDecode [n0, n1, n2, n3])).take
            (leDecode [s0, s1, s2, s3])) :: rs)
    else none
  | _ + 1, _ => none

/-- Parse a whole .ll file: the architecture string, then the records
(the stream length bounds the number of records). -/
def parseLL (bytes : List Nat) : Option (List Nat × List LLRecord) :=
  match parseArch bytes with
  | none => none
  | some (a, rest) =>
    match decodeRecords rest.length rest with
    | none => none
    | some rs => some (a, rs)

end LowLevel

-- DEFS_INSERT_POINT

/-! ## Lemmas and claim theorems -/

namespace NameBuffer

theorem appendBytes_length_le {s : Buf} (hs : s.length ≤ kUtf8BufferSize)
    (bytes : List Nat) : (appendBytes s bytes).length ≤ kUtf8BufferSize := by
  simp only [appendBytes, List.length_append, List.length_take]
  omega

theorem appendByte_length_le {s : Buf} (hs : s.length ≤ kUtf8BufferSize)
    (c : Nat) : (appendByte s c).length ≤ kUtf8BufferSize := by
  unfold appendByte
  split
  · exact hs
  · simp only [List.length_append, List.length_singleton]
    omega

theorem appendInt_length_le {s : Buf} (hs : s.length ≤ kUtf8BufferSize)
    (n : Int) : (appendInt s n).length ≤ kUtf8BufferSize := by
  unfold appendInt
  split
  · exact hs
  · split
    · rename_i h
      simp only [List.length_append]
      omega
    · exact hs

theorem appendHex_length_le {s : Buf} (hs : s.length ≤ kUtf8BufferSize)
    (n : Nat) : (appendHex s n).length ≤ kUtf8BufferSize := by
  unfold appendHex
  split
  · exact hs
  · split
    · rename_i h
      simp only [List.length_append]
      omega
    · exact hs

theorem appendString_length_le {s : Buf} (hs : s.length ≤ kUtf8BufferSize)
    (strBytes : Option (List Nat)) :
    (appendString s strBytes).length ≤ kUtf8BufferSize := by
  cases strBytes with
  | none => exact hs
  | some bs => exact appendBytes_length_le hs bs

theorem appendName_length_le {s : Buf} (hs : s.length ≤ kUtf8BufferSize)
    (strName : Option (List Nat)) (descr : Option (List Nat)) (hash : Nat) :
    (appendName s strName descr hash).length ≤ kUtf8BufferSize := by
  cases strName with
  | some bs => exact appendBytes_length_le hs bs
  | none =>
    cases descr with
    | some d =>
      apply appendByte_length_le
      apply appendHex_length_le
      apply appendBytes_length_le
      apply appendBytes_length_le
      apply appendString_length_le
      apply appendBytes_length_le
      apply appendBytes_length_le
      exact hs
    | none =>
      apply appendByte_length_le
      apply appendHex_length_le
      apply appendBytes_length_le
      apply appendBytes_length_le
      exact hs

theorem init_length_le (tagName : List Nat) :
    (init tagName).length ≤ kUtf8BufferSize :=
  appendByte_length_le (appendBytes_length_le (by simp) tagName) 58

theorem step_length_le {s : Buf} (hs : s.length ≤ kUtf8BufferSize)
    (op : Op) : (step s op).length ≤ kUtf8BufferSize := by
  cases op with
  | initOp tagName => exact init_length_le tagName
  | appendNameOp strName descr hash => exact appendName_length_le hs _ _ _
  | appendStringOp strBytes => exact appendString_length_le hs _
  | appendBytesOp bytes => exact appendBytes_length_le hs _
  | appendByteOp c => exact appendByte_length_le hs _
  | appendIntOp n => exact appendInt_length_le hs _
  | appendHexOp n => exact appendHex_length_le hs _

theorem foldl_length_le {s : Buf} (hs : s.length ≤ kUtf8BufferSize)
    (ops : List Op) : (ops.foldl step s).length ≤ kUtf8BufferSize := by
  induction ops generalizing s with
  | nil => exact hs
  | cons op ops ih => exact ih (step_length_le hs op)

theorem appendInt_cases (s : Buf) (n : Int) :
    appendInt s n = s ∨ appendInt s n = s ++ decRender n := by
  unfold appendInt
  split
  · exact Or.inl rfl
  · split
    · exact Or.inr rfl
    · exact Or.inl rfl

theorem appendHex_cases (s : Buf) (n : Nat) :
    appendHex s n = s ∨ appendHex s n = s ++ hexRender n := by
  unfold appendHex
  split
  · exact Or.inl rfl
  · split
    · exact Or.inr rfl
    · exact Or.inl rfl

theorem appendInt_of_not_fit {s : Buf} {n : Int}
    (hs : s.length ≤ kUtf8BufferSize)
    (h : kUtf8BufferSize - s.length < (decRender n).length) :
    appendInt s n = s := by
  unfold appendInt
  split
  · rfl
  · rename_i hsp
    split
    · rename_i hc
      exfalso
      have h1 : ((decRender n).length : Int) <
          (kUtf8BufferSize : Int) - (s.length : Int) := hc.1
      omega
    · rfl

theorem appendHex_of_not_fit {s : Buf} {n : Nat}
    (hs : s.length ≤ kUtf8BufferSize)
    (h : kUtf8BufferSize - s.length < (hexRender n).length) :
    appendHex s n = s := by
  unfold appendHex
  split
  · rfl
  · rename_i hsp
    split
    · rename_i hc
      exfalso
      have h1 : ((hexRender n).length : Int) <
          (kUtf8BufferSize : Int) - (s.length : Int) := hc.1
      omega
    · rfl

end NameBuffer

/-- C4: for every sequence of NameBuffer operations (Init, AppendName,
AppendString, AppendBytes, AppendByte, AppendInt, AppendHex) with
arbitrary arguments, at every intermediate point the buffer size is at
most the 4096-byte capacity — every intermediate point being the state
reached by some operation sequence, appending more total bytes than the
capacity silently truncates (AppendBytes keeps only the part that fits)
instead of writing past capacity. -/
theorem c4_namebuffer_size_le_capacity (ops : List NameBuffer.Op) :
    (NameBuffer.run ops).length ≤ NameBuffer.kUtf8BufferSize ∧
      (∀ s : NameBuffer.Buf, ∀ bytes : List Nat,
        NameBuffer.appendBytes s bytes =
          s ++ bytes.take (NameBuffer.kUtf8BufferSize - s.length)) := by
  constructor
  · exact NameBuffer.foldl_length_le (by simp) ops
  · intro s bytes
    rfl

/-- C10: AppendInt and AppendHex are all-or-nothing: for every buffer
state (any state the buffer can be in, so size at most capacity) and
every value, if the complete decimal (resp. hexadecimal) rendering does
not fit in the remaining capacity the buffer is left entirely unchanged
— no partial digit sequence is appended, the result is always either the
unchanged buffer or the buffer with the complete rendering appended —
whereas AppendBytes appends the truncated part that fits. -/
theorem c10_appendInt_appendHex_all_or_nothing (s : NameBuffer.Buf)
    (n : Int) (m : Nat) (bytes : List Nat)
    (hs : s.length ≤ NameBuffer.kUtf8BufferSize) :
    (NameBuffer.kUtf8BufferSize - s.length < (NameBuffer.decRender n).length →
        NameBuffer.appendInt s n = s) ∧
      (NameBuffer.appendInt s n = s ∨
        NameBuffer.appendInt s n = s ++ NameBuffer.decRender n) ∧
      (NameBuffer.kUtf8BufferSize - s.length <
          (NameBuffer.hexRender m).length →
        NameBuffer.appendHex s m = s) ∧
      (NameBuffer.appendHex s m = s ∨
        NameBuffer.appendHex s m = s ++ NameBuffer.hexRender m) ∧
      NameBuffer.appendBytes s bytes =
        s ++ bytes.take (NameBuffer.kUtf8BufferSize - s.length) :=
  ⟨fun h => NameBuffer.appendInt_of_not_fit hs h,
    NameBuffer.appendInt_cases s n,
    fun h => NameBuffer.appendHex_of_not_fit hs h,
    NameBuffer.appendHex_cases s m, rfl⟩

/-- Witness for C10 at the empty buffer with int value 5, hex value 7 and
byte list [1, 2]. -/
theorem c10_witness :
    ([] : NameBuffer.Buf).length ≤ NameBuffer.kUtf8BufferSize ∧
      ((NameBuffer.kUtf8BufferSize - ([] : NameBuffer.Buf).length <
          (NameBuffer.decRender 5).length →
        NameBuffer.appendInt [] 5 = []) ∧
      (NameBuffer.appendInt [] 5 = [] ∨
        NameBuffer.appendInt [] 5 = [] ++ NameBuffer.decRender 5) ∧
      (NameBuffer.kUtf8BufferSize - ([] : NameBuffer.Buf).length <
          (NameBuffer.hexRender 7).length →
        NameBuffer.appendHex [] 7 = []) ∧
      (NameBuffer.appendHex [] 7 = [] ∨
        NameBuffer.appendHex [] 7 = [] ++ NameBuffer.hexRender 7) ∧
      NameBuffer.appendBytes [] [1, 2] =
        [] ++ [1, 2].take (NameBuffer.kUtf8BufferSize -
          ([] : NameBuffer.Buf).length)) :=
  ⟨by decide, c10_appendInt_appendHex_all_or_nothing [] 5 7 [1, 2] (by decide)⟩

namespace Profiler

theorem insert_of_full {s : State} (x : Sample) (h : fullState s) :
    insert s x = { s with overflow := true } := by
  unfold fullState at h
  unfold insert
  rw [if_pos h]

theorem inv_overflow_irrelevant {s : State} {q : List Sample} {b : Bool}
    (hI : Inv s q) : Inv { s with overflow := b } q :=
  ⟨hI.head_lt, hI.tail_lt, hI.sem_eq, hI.len_le, hI.head_eq, hI.content⟩

theorem inv_running_irrelevant {s : State} {q : List Sample} {b : Bool}
    (hI : Inv s q) : Inv { s with running := b } q :=
  ⟨hI.head_lt, hI.tail_lt, hI.sem_eq, hI.len_le, hI.head_eq, hI.content⟩

theorem full_iff_len {s : State} {q : List Sample} (hI : Inv s q) :
    fullState s ↔ q.length = kBufferSize - 1 := by
  have h1 := hI.head_lt
  have h2 := hI.tail_lt
  have h3 := hI.head_eq
  have h4 := hI.len_le
  unfold fullState succIdx
  simp only [kBufferSize] at *
  omega

theorem inv_init : Inv initState [] := by
  refine ⟨?_, ?_, ?_, ?_, ?_, ?_⟩ <;>
    simp [initState, kBufferSize]

theorem inv_insert {s : State} {q : List Sample} (hI : Inv s q)
    (x : Sample) :
    Inv (insert s x)
      (if q.length = kBufferSize - 1 then q else q ++ [x]) := by
  by_cases hf : fullState s
  · rw [insert_of_full x hf, if_pos ((full_iff_len hI).mp hf)]
    exact inv_overflow_irrelevant hI
  · have hlen : q.length ≠ kBufferSize - 1 := fun h =>
      hf ((full_iff_len hI).mpr h)
    rw [if_neg hlen]
    unfold fullState at hf
    have h1 := hI.head_lt
    have h2 := hI.tail_lt
    have h3 := hI.head_eq
    have h4 := hI.len_le
    have h5 := hI.sem_eq
    unfold insert
    rw [if_neg hf]
    refine ⟨?_, h2, ?_, ?_, ?_, ?_⟩
    · show succIdx s.head < kBufferSize
      unfold succIdx
      exact Nat.mod_lt _ (by simp [kBufferSize])
    · show s.sem + 1 = (q ++ [x]).length
      simp [h5]
    · show (q ++ [x]).length ≤ kBufferSize - 1
      simp only [List.length_append, List.length_singleton,
        kBufferSize] at *
      omega
    · show succIdx s.head = (s.tail + (q ++ [x]).length) % kBufferSize
      unfold succIdx
      simp only [List.length_append, List.length_singleton,
        kBufferSize] at *
      omega
    · intro i hi
      show (fun j => if j = s.head then x else s.buffer j)
          ((s.tail + i) % kBufferSize) = (q ++ [x]).getD i 0
      simp only [List.length_append, List.length_singleton] at hi
      by_cases hil : i < q.length
      · have hne : (s.tail + i) % kBufferSize ≠ s.head := by
          simp only [kBufferSize] at *
          omega
        simp only [hne, if_false]
        rw [hI.content i hil, List.getD_append _ _ _ _ hil]
      · have hieq : i = q.length := by omega
        subst hieq
        have heq : (s.tail + q.length) % kBufferSize = s.head := h3.symm
        simp only [heq, if_true]
        rw [List.getD_append_right q [x] 0 q.length (le_refl q.length)]
        simp

theorem inv_remove {s : State} {y : Sample} {q' : List Sample}
    (hI : Inv s (y :: q')) :
    removeOp s =
      some
        ({ s with
            tail := succIdx s.tail
            overflow := false
            sem := s.sem - 1 },
          y, s.overflow) ∧
      Inv
        { s with
            tail := succIdx s.tail
            overflow := false
            sem := s.sem - 1 } q' := by
  have h1 := hI.head_lt
  have h2 := hI.tail_lt
  have h3 := hI.head_eq
  have h4 := hI.len_le
  have h5 := hI.sem_eq
  have hsem : s.sem ≠ 0 := by
    rw [h5]
    simp
  constructor
  · unfold removeOp
    rw [if_neg hsem]
    have hy : s.buffer s.tail = y := by
      have := hI.content 0 (by simp)
      simpa [Nat.mod_eq_of_lt h2] using this
    rw [hy]
  · refine ⟨h1, ?_, ?_, ?_, ?_, ?_⟩
    · show succIdx s.tail < kBufferSize
      unfold succIdx
      exact Nat.mod_lt _ (by simp [kBufferSize])
    · show s.sem - 1 = q'.length
      simp only [List.length_cons] at h5
      omega
    · show q'.length ≤ kBufferSize - 1
      simp only [List.length_cons] at h4
      omega
    · show s.head = (succIdx s.tail + q'.length) % kBufferSize
      unfold succIdx
      simp only [List.length_cons, kBufferSize] at *
      omega
    · intro i hi
      show s.buffer ((succIdx s.tail + i) % kBufferSize) = q'.getD i 0
      have hidx : (succIdx s.tail + i) % kBufferSize =
          (s.tail + (i + 1)) % kBufferSize := by
        unfold succIdx
        simp only [kBufferSize]
        omega
      rw [hidx, hI.content (i + 1) (by simpa using Nat.succ_lt_succ hi)]
      simp

theorem runOps_append (ops : List Op) (op : Op) :
    runOps (ops ++ [op]) = stepOp (runOps ops) op := by
  unfold runOps
  rw [List.foldl_append]
  rfl

theorem validFrom_append (s : State) (l1 l2 : List Op) :
    validFrom s (l1 ++ l2) =
      (validFrom s l1 && validFrom (l1.foldl stepOp s) l2) := by
  induction l1 generalizing s with
  | nil => simp [validFrom]
  | cons op l1 ih =>
    cases op with
    | ins x =>
      simp only [List.cons_append, validFrom, List.foldl_cons,
        List.append_eq]
      exact ih (insert s x)
    | rem =>
      simp only [List.cons_append, validFrom, List.foldl_cons,
        List.append_eq]
      rw [ih (stepOp s .rem), Bool.and_assoc]

theorem inv_runFrom (ops : List Op) :
    ∀ (s : State) (q : List Sample), Inv s q → validFrom s ops = true →
      Inv (ops.foldl stepOp s) (queueAux q ops) := by
  induction ops with
  | nil => intro s q hI _; exact hI
  | cons op ops ih =>
    intro s q hI hv
    cases op with
    | ins x =>
      simp only [validFrom] at hv
      simp only [List.foldl_cons, queueAux]
      have := ih (insert s x) _ (inv_insert hI x) hv
      by_cases hlen : q.length = kBufferSize - 1
      · simpa [hlen] using this
      · simpa [hlen] using this
    | rem =>
      simp only [validFrom, Bool.and_eq_true, decide_eq_true_eq] at hv
      obtain ⟨hsem, hv⟩ := hv
      have hqne : q ≠ [] := by
        intro h
        rw [h] at hI
        exact hsem (by simpa using hI.sem_eq)
      obtain ⟨y, q', rfl⟩ := List.exists_cons_of_ne_nil hqne
      obtain ⟨hrem, hI'⟩ := inv_remove hI
      simp only [List.foldl_cons, queueAux, List.drop_one, List.tail_cons]
      have hstep : stepOp s Op.rem =
          { s with
              tail := succIdx s.tail
              overflow := false
              sem := s.sem - 1 } := by
        unfold stepOp
        rw [hrem]
      rw [hstep]
      apply ih _ _ hI'
      rw [← hstep]
      exact hv

theorem inv_run (ops : List Op) (h : valid ops = true) :
    Inv (runOps ops) (queueAux [] ops) :=
  inv_runFrom ops initState [] inv_init h

theorem unread_eq_len {s : State} {q : List Sample} (hI : Inv s q) :
    unread s = q.length := by
  have h1 := hI.head_lt
  have h2 := hI.tail_lt
  have h3 := hI.head_eq
  have h4 := hI.len_le
  unfold unread
  simp only [kBufferSize] at *
  omega

end Profiler

namespace Profiler

theorem getElem?_some_lt {l : List Op} {k : Nat} {a : Op}
    (h : l[k]? = some a) : k < l.length := by
  by_contra hc
  rw [List.getElem?_eq_none (by omega)] at h
  simp at h

theorem valid_append_left {l1 l2 : List Op} (h : valid (l1 ++ l2) = true) :
    valid l1 = true := by
  unfold valid at *
  rw [validFrom_append] at h
  simp only [Bool.and_eq_true] at h
  exact h.1

theorem valid_append_run {l1 l2 : List Op} (h : valid (l1 ++ l2) = true) :
    validFrom (runOps l1) l2 = true := by
  unfold valid at h
  rw [validFrom_append] at h
  simp only [Bool.and_eq_true] at h
  exact h.2

theorem overflow_insert (s : State) (x : Sample) :
    (insert s x).overflow = (s.overflow || decide (fullState s)) := by
  by_cases hf : fullState s
  · rw [insert_of_full x hf]
    simp [hf]
  · unfold fullState at hf
    unfold insert
    rw [if_neg hf]
    simp only [decide_eq_false (show ¬ fullState s from hf), Bool.or_false]

theorem stepOp_rem_overflow {s : State} (h : s.sem ≠ 0) :
    (stepOp s Op.rem).overflow = false := by
  simp [stepOp, removeOp, h]

theorem dropped_nil : ¬ droppedSinceLastRemove [] := by
  rintro ⟨k, y, hk, -, -⟩
  simp at hk

theorem dropped_append_ins (ops : List Op) (x : Sample) :
    droppedSinceLastRemove (ops ++ [Op.ins x]) ↔
      (droppedSinceLastRemove ops ∨ fullState (runOps ops)) := by
  constructor
  · rintro ⟨k, y, hk, hfull, hnr⟩
    have hklt : k < ops.length + 1 := by
      have := getElem?_some_lt hk
      simpa using this
    rcases Nat.lt_or_ge k ops.length with hlt | hge
    · left
      refine ⟨k, y, ?_, ?_, ?_⟩
      · rwa [List.getElem?_append_left hlt] at hk
      · rwa [List.take_append_of_le_length (Nat.le_of_lt hlt)] at hfull
      · intro j hj
        by_cases hjl : j < ops.length
        · have := hnr j hj
          rwa [List.getElem?_append_left hjl] at this
        · rw [List.getElem?_eq_none (by omega)]
          simp
    · right
      have hke : k = ops.length := by omega
      subst hke
      rwa [List.take_append_of_le_length (Nat.le_refl _),
        List.take_length ops] at hfull
  · rintro (⟨k, y, hk, hfull, hnr⟩ | hfull)
    · have hklt : k < ops.length := getElem?_some_lt hk
      refine ⟨k, y, ?_, ?_, ?_⟩
      · rwa [List.getElem?_append_left hklt]
      · rwa [List.take_append_of_le_length (Nat.le_of_lt hklt)]
      · intro j hj
        by_cases hjl : j < ops.length
        · rw [List.getElem?_append_left hjl]
          exact hnr j hj
        · by_cases hje : j = ops.length
          · subst hje
            rw [List.getElem?_concat_length]
            simp
          · rw [List.getElem?_eq_none (by simp; omega)]
            simp
    · refine ⟨ops.length, x, ?_, ?_, ?_⟩
      · exact List.getElem?_concat_length ops (Op.ins x)
      · rwa [List.take_append_of_le_length (Nat.le_refl _),
          List.take_length ops]
      · intro j hj
        rw [List.getElem?_eq_none (by simp; omega)]
        simp

theorem dropped_append_rem (ops : List Op) :
    ¬ droppedSinceLastRemove (ops ++ [Op.rem]) := by
  rintro ⟨k, y, hk, -, hnr⟩
  have hklt : k < ops.length + 1 := by
    have := getElem?_some_lt hk
    simpa using this
  by_cases hke : k = ops.length
  · subst hke
    rw [List.getElem?_concat_length] at hk
    simp at hk
  · have := hnr ops.length (by omega)
    rw [List.getElem?_concat_length] at this
    exact this rfl

theorem overflow_iff_dropped (ops : List Op) :
    valid ops = true →
    ((runOps ops).overflow = true ↔ droppedSinceLastRemove ops) := by
  induction ops using List.reverseRecOn with
  | nil =>
    intro _
    exact iff_of_false (by simp [runOps, initState]) dropped_nil
  | append_singleton ops op ih =>
    intro hv
    have hv1 : valid ops = true := valid_append_left hv
    rw [runOps_append]
    cases op with
    | ins x =>
      have hstep : stepOp (runOps ops) (Op.ins x) =
          insert (runOps ops) x := rfl
      rw [hstep, dropped_append_ins, overflow_insert]
      by_cases hf : fullState (runOps ops)
      · simp [hf]
      · simp [hf, ih hv1]
    | rem =>
      have hsem : (runOps ops).sem ≠ 0 := by
        have h2 := valid_append_run hv
        unfold validFrom at h2
        simp only [Bool.and_eq_true, decide_eq_true_eq] at h2
        exact h2.1
      rw [stepOp_rem_overflow hsem]
      exact iff_of_false (by simp) (dropped_append_rem ops)

end Profiler

namespace Profiler

theorem runLoopDeliver_id (ps : List (Sample × Bool)) :
    runLoopDeliver true ps = ps := by
  induction ps with
  | nil => rfl
  | cons p ps ih => simp [runLoopDeliver, ih]

theorem fifo_from (ops : List Op) :
    ∀ (s : State) (q : List Sample), Inv s q → validFrom s ops = true →
      (outsFrom s ops).map Prod.fst =
        (q ++ keptInsertsAux q.length ops).take
          (outsFrom s ops).length := by
  induction ops with
  | nil =>
    intro s q hI hv
    simp [outsFrom, keptInsertsAux]
  | cons op ops ih =>
    intro s q hI hv
    cases op with
    | ins x =>
      simp only [validFrom] at hv
      simp only [outsFrom, keptInsertsAux]
      by_cases hlen : q.length = kBufferSize - 1
      · have hf : fullState s := (full_iff_len hI).mpr hlen
        have hI2 : Inv (insert s x) q := by
          rw [insert_of_full x hf]
          exact inv_overflow_irrelevant hI
        rw [if_pos hlen]
        exact ih (insert s x) q hI2 hv
      · have hI2 : Inv (insert s x) (q ++ [x]) := by
          have h := inv_insert hI x
          rwa [if_neg hlen] at h
        rw [if_neg hlen]
        have h := ih (insert s x) (q ++ [x]) hI2 hv
        simpa [List.append_assoc, List.length_append] using h
    | rem =>
      simp only [validFrom, Bool.and_eq_true, decide_eq_true_eq] at hv
      obtain ⟨hsem, hv⟩ := hv
      have hqne : q ≠ [] := by
        intro h
        rw [h] at hI
        exact hsem (by simpa using hI.sem_eq)
      obtain ⟨y, q', rfl⟩ := List.exists_cons_of_ne_nil hqne
      obtain ⟨hrem, hI1⟩ := inv_remove hI
      have hstep : stepOp s Op.rem =
          { s with
              tail := succIdx s.tail
              overflow := false
              sem := s.sem - 1 } := by
        unfold stepOp
        rw [hrem]
      rw [hstep] at hv
      simp only [outsFrom, keptInsertsAux, hrem]
      have h := ih _ q' hI1 hv
      simp only [List.map_cons, List.length_cons, List.length_cons,
        List.take_succ_cons, List.cons_append]
      rw [h]
      congr 1

end Profiler

/-- C9: for every valid trace the number of unread samples in the
128-slot ring is at most kBufferSize - 1 = 127, and an Insert attempted
with 127 unread samples is dropped — the state is unchanged except that
the overflow flag is set — because Insert treats the buffer as full when
the successor of head equals tail, so one of the 128 slots always stays
unused. -/
theorem c9_at_most_127_unread (ops : List Profiler.Op)
    (hv : Profiler.valid ops = true) :
    Profiler.unread (Profiler.runOps ops) ≤ Profiler.kBufferSize - 1 ∧
      (Profiler.unread (Profiler.runOps ops) = Profiler.kBufferSize - 1 →
        ∀ x, Profiler.insert (Profiler.runOps ops) x =
          { Profiler.runOps ops with overflow := true }) := by
  have hI := Profiler.inv_run ops hv
  have hu := Profiler.unread_eq_len hI
  have hl := hI.len_le
  refine ⟨by omega, fun h127 x => Profiler.insert_of_full x ?_⟩
  exact (Profiler.full_iff_len hI).mpr (by omega)

/-- Witness for C9 on the one-insert trace. -/
theorem c9_witness :
    Profiler.valid [Profiler.Op.ins 5] = true ∧
      Profiler.unread (Profiler.runOps [Profiler.Op.ins 5]) ≤
        Profiler.kBufferSize - 1 :=
  ⟨by decide, (c9_at_most_127_unread [Profiler.Op.ins 5] (by decide)).1⟩

/-- C3: for every valid alternating trace of Inserts and Removes, a
Remove reports overflow (returns true) if and only if at least one
Insert since the previous Remove (or since construction) was attempted
while the buffer was full — there is an Insert in the trace, with no
Remove after it, executed in a full machine state; moreover a
full-buffer Insert drops its sample and never overwrites an unread slot
(the state is unchanged but for the overflow flag), and the producer
side never blocks (Insert is a total state function, returning
immediately in both branches). -/
theorem c3_overflow_reported_iff (ops : List Profiler.Op)
    (s1 : Profiler.State) (x : Profiler.Sample) (b : Bool)
    (hv : Profiler.valid ops = true)
    (hr : Profiler.removeOp (Profiler.runOps ops) = some (s1, x, b)) :
    (b = true ↔ Profiler.droppedSinceLastRemove ops) ∧
      (∀ (s : Profiler.State) (y : Profiler.Sample), Profiler.fullState s →
        Profiler.insert s y = { s with overflow := true }) := by
  constructor
  · have hb : b = (Profiler.runOps ops).overflow := by
      unfold Profiler.removeOp at hr
      split at hr
      · cases hr
      · simp only [Option.some.injEq, Prod.mk.injEq] at hr
        exact hr.2.2.symm
    rw [hb]
    exact Profiler.overflow_iff_dropped ops hv
  · exact fun s y h => Profiler.insert_of_full y h

/-- Witness for C3 on the one-insert trace: the first Remove reports no
overflow, and indeed no Insert of the trace ran on a full buffer. -/
theorem c3_witness :
    Profiler.valid [Profiler.Op.ins 5] = true ∧
      ((false = true) ↔
        Profiler.droppedSinceLastRemove [Profiler.Op.ins 5]) :=
  ⟨by decide,
    (c3_overflow_reported_iff [Profiler.Op.ins 5] _ 5 false
      (by decide) rfl).1⟩

/-- C5: for every valid interleaving of producer Inserts and consumer
Removes (the producer never blocking: a full-buffer Insert drops), the
consumer observes exactly the non-dropped samples in push order — the
samples returned by the successive Removes are the first elements, in
order, of the list of accepted Inserts — and the Run loop hands the
resulting Tick records to the broadcast registry one per Remove in that
same order. -/
theorem c5_fifo_order (ops : List Profiler.Op)
    (hv : Profiler.valid ops = true) :
    (Profiler.outs ops).map Prod.fst =
      (Profiler.keptInserts ops).take (Profiler.outs ops).length ∧
      Profiler.runLoopDeliver true (Profiler.outs ops) =
        Profiler.outs ops := by
  constructor
  · have h := Profiler.fifo_from ops Profiler.initState []
      Profiler.inv_init hv
    simpa [Profiler.outs, Profiler.keptInserts] using h
  · exact Profiler.runLoopDeliver_id _

/-- Witness for C5 on the trace insert 3, insert 4, remove, remove. -/
theorem c5_witness :
    Profiler.valid
        [Profiler.Op.ins 3, Profiler.Op.ins 4, Profiler.Op.rem,
          Profiler.Op.rem] = true ∧
      (Profiler.outs
          [Profiler.Op.ins 3, Profiler.Op.ins 4, Profiler.Op.rem,
            Profiler.Op.rem]).map Prod.fst =
        (Profiler.keptInserts
            [Profiler.Op.ins 3, Profiler.Op.ins 4, Profiler.Op.rem,
              Profiler.Op.rem]).take
          (Profiler.outs
              [Profiler.Op.ins 3, Profiler.Op.ins 4, Profiler.Op.rem,
                Profiler.Op.rem]).length :=
  ⟨by decide,
    (c5_fifo_order
      [Profiler.Op.ins 3, Profiler.Op.ins 4, Profiler.Op.rem,
        Profiler.Op.rem] (by decide)).1⟩

set_option maxRecDepth 40000 in
/-- C2 counterexample: in the reachable state where the ring already
holds 127 unread samples, the buffer is full and the sentinel sample
pushed by Disengage through the ordinary Insert IS dropped: head and the
semaphore count are unchanged (the sample is not enqueued and no signal
is raised), only the overflow flag is set — refuting the conjunct that
the sentinel push is never dropped. -/
theorem c2_counterexample_sentinel_dropped :
    Profiler.valid Profiler.full127 = true ∧
      Profiler.fullState (Profiler.runOps Profiler.full127) ∧
      (Profiler.disengagePush (Profiler.runOps Profiler.full127) 999).head =
        (Profiler.runOps Profiler.full127).head ∧
      (Profiler.disengagePush (Profiler.runOps Profiler.full127) 999).sem =
        (Profiler.runOps Profiler.full127).sem ∧
      (Profiler.disengagePush (Profiler.runOps Profiler.full127)
          999).overflow = true := by
  refine ⟨by decide, by decide, by decide, by decide, by decide⟩

/-- C2 (amended): Disengage always terminates, even though on a full
buffer its sentinel push goes through the ordinary Insert and is
dropped: for every reachable buffer state, after Disengage clears the
running flag and performs its Insert the semaphore count is positive, so
the consumer's pending Remove returns, the Run loop observes the cleared
running flag and exits delivering no further Tick events (samples still
buffered at shutdown are discarded, not logged), and the Join in
Disengage returns. -/
theorem c2_disengage_terminates (ops : List Profiler.Op)
    (sentinel : Profiler.Sample) (hv : Profiler.valid ops = true) :
    Profiler.consumerFinishTicks
        (Profiler.disengagePush (Profiler.runOps ops) sentinel) =
      some [] := by
  have hI := Profiler.inv_run ops hv
  have hI0 : Profiler.Inv
      { Profiler.runOps ops with running := false } (Profiler.queueAux [] ops) :=
    Profiler.inv_running_irrelevant hI
  by_cases hf :
    Profiler.fullState { Profiler.runOps ops with running := false }
  · have hq : (Profiler.queueAux [] ops).length =
        Profiler.kBufferSize - 1 := (Profiler.full_iff_len hI0).mp hf
    unfold Profiler.disengagePush
    rw [Profiler.insert_of_full sentinel hf]
    unfold Profiler.consumerFinishTicks Profiler.removeOp
    have hsem :
        ¬ ({ Profiler.runOps ops with
              running := false, overflow := true } : Profiler.State).sem
          = 0 := by
      show ¬ (Profiler.runOps ops).sem = 0
      rw [hI.sem_eq, hq]
      simp [Profiler.kBufferSize]
    rw [if_neg hsem]
    simp
  · unfold Profiler.disengagePush Profiler.insert
    unfold Profiler.fullState at hf
    rw [if_neg hf]
    unfold Profiler.consumerFinishTicks Profiler.removeOp
    simp

/-- Witness for the amended C2 on the empty trace (empty buffer at
Disengage time). -/
theorem c2_witness :
    Profiler.valid [] = true ∧
      Profiler.consumerFinishTicks
          (Profiler.disengagePush (Profiler.runOps []) 0) = some [] :=
  ⟨by decide, c2_disengage_terminates [] 0 (by decide)⟩

namespace PerfMap

theorem life_inv (ops : List LifeOp) :
    ∀ (g : FileState),
      (g.handleOpen = true ↔ 0 < g.referenceCount) →
      lifeValidFrom g.referenceCount ops = true →
      ((ops.foldl lifeStep g).handleOpen = true ↔
        0 < (ops.foldl lifeStep g).referenceCount) := by
  induction ops with
  | nil => intro g hiff _; exact hiff
  | cons op ops ih =>
    intro g hiff hv
    cases op with
    | ctor =>
      simp only [lifeValidFrom] at hv
      simp only [List.foldl_cons, lifeStep]
      have hrc : (ctorStep g).referenceCount = g.referenceCount + 1 := by
        unfold ctorStep
        split <;> rfl
      apply ih
      · by_cases h1 : g.referenceCount + 1 = 1
        · simp [ctorStep, h1]
        · simp only [ctorStep, if_neg h1]
          constructor
          · intro _
            show 0 < g.referenceCount + 1
            omega
          · intro _
            exact hiff.mpr (by omega)
      · rw [hrc]
        exact hv
    | dtor =>
      simp only [lifeValidFrom, Bool.and_eq_true, decide_eq_true_eq] at hv
      obtain ⟨hlive, hv⟩ := hv
      simp only [List.foldl_cons, lifeStep]
      have hrc : (dtorStep g).referenceCount = g.referenceCount - 1 := by
        unfold dtorStep
        split <;> rfl
      apply ih
      · by_cases h0 : g.referenceCount - 1 = 0
        · simp [dtorStep, h0]
        · simp only [dtorStep, if_neg h0]
          constructor
          · intro _
            show 0 < g.referenceCount - 1
            omega
          · intro _
            exact hiff.mpr (by omega)
      · rw [hrc]
        exact hv

end PerfMap

/-- C7: the perf-map file lifecycle is reference counted: for every well
formed sequence of constructions and destructions, after running it the
shared file handle is non-null exactly when the reference count is
positive (the constructor opens the file when the count rises to 1, the
destructor closes it when the count returns to 0); in particular with
two logger instances, destroying one leaves the file open for the
survivor, and destroying the second closes it. -/
theorem c7_refcounted_lifecycle :
    (∀ ops : List PerfMap.LifeOp, PerfMap.lifeValid ops = true →
      ((PerfMap.lifeRun ops).handleOpen = true ↔
        0 < (PerfMap.lifeRun ops).referenceCount)) ∧
      (PerfMap.lifeRun
          [PerfMap.LifeOp.ctor, PerfMap.LifeOp.ctor,
            PerfMap.LifeOp.dtor]).handleOpen = true ∧
      (PerfMap.lifeRun
          [PerfMap.LifeOp.ctor, PerfMap.LifeOp.ctor, PerfMap.LifeOp.dtor,
            PerfMap.LifeOp.dtor]).handleOpen = false := by
  refine ⟨fun ops hv => ?_, by decide, by decide⟩
  exact PerfMap.life_inv ops PerfMap.fileInit (by simp [PerfMap.fileInit]) hv

/-- Witness for C7 on the single-construction sequence. -/
theorem c7_witness :
    PerfMap.lifeValid [PerfMap.LifeOp.ctor] = true ∧
      ((PerfMap.lifeRun [PerfMap.LifeOp.ctor]).handleOpen = true ↔
        0 < (PerfMap.lifeRun [PerfMap.LifeOp.ctor]).referenceCount) :=
  ⟨by decide, c7_refcounted_lifecycle.1 [PerfMap.LifeOp.ctor] (by decide)⟩

/-- C8: every modelled V8FileLogger operation that writes to the shared
text log requests a message builder on each call (the MSG_BUILDER
macro); when logging is currently disabled the builder request yields
null and the operation returns immediately as a normal no-op: the log
state is unchanged and the operation returns normally, raising no
error. -/
theorem c8_disabled_logging_noop (s : FileLog.LogState)
    (name value : List Nat) (interval : Nat) (flagLog : Bool)
    (object size : Nat) (hoff : s.isLogging = false) :
    FileLog.newMessageBuilder s = none ∧
      FileLog.uncheckedStringEvent s name value = s ∧
      FileLog.profilerBeginEvent s interval = s ∧
      FileLog.newEvent s flagLog name object size = s := by
  have hb : FileLog.newMessageBuilder s = none := by
    simp [FileLog.newMessageBuilder, hoff]
  refine ⟨hb, ?_, ?_, ?_⟩
  · simp [FileLog.uncheckedStringEvent, hb]
  · simp [FileLog.profilerBeginEvent, hb]
  · cases flagLog with
    | false => simp [FileLog.newEvent]
    | true => simp [FileLog.newEvent, hb]

/-- Witness for C8 on a concrete disabled log state. -/
theorem c8_witness :
    (({ isLogging := false, lines := [[1]] } :
        FileLog.LogState).isLogging = false) ∧
      (FileLog.newMessageBuilder
          { isLogging := false, lines := [[1]] } = none ∧
        FileLog.uncheckedStringEvent
            { isLogging := false, lines := [[1]] } [2] [3] =
          { isLogging := false, lines := [[1]] } ∧
        FileLog.profilerBeginEvent
            { isLogging := false, lines := [[1]] } 7 =
          { isLogging := false, lines := [[1]] } ∧
        FileLog.newEvent
            { isLogging := false, lines := [[1]] } true [2] 4 5 =
          { isLogging := false, lines := [[1]] }) :=
  ⟨rfl, c8_disabled_logging_noop
    { isLogging := false, lines := [[1]] } [2] [3] 7 true 4 5 rfl⟩

/-- C1 (code bug): under FLAG_perf_basic_prof_only_functions the filter
in LinuxPerfBasicLogger::LogRecordedBuffer is inverted — the early
return fires when CodeKindIsBuiltinOrJSFunction holds, so the map line
for a user JS function (INTERPRETED_FUNCTION kind) is NOT written while
non-function code such as a REGEXP code object IS written, the opposite
of the documented "only functions" behavior: evaluating the encoder at
a user-function creation appends nothing, and at a regexp creation
appends a line. -/
theorem c1_basic_only_filter_inverted :
    PerfBasic.logRecordedBuffer true
        PerfBasic.CodeKind.INTERPRETED_FUNCTION 4096 64
        [102, 111, 111] [] = [] ∧
      PerfBasic.logRecordedBuffer true PerfBasic.CodeKind.REGEXP 4096 64
          [102, 111, 111] [] =
        [⟨4096, 64, [102, 111, 111]⟩] ∧
      PerfBasic.CodeKindIsJSFunction
          PerfBasic.CodeKind.INTERPRETED_FUNCTION = true ∧
      PerfBasic.CodeKindIsJSFunction PerfBasic.CodeKind.REGEXP = false := by
  refine ⟨by decide, by decide, by decide, by decide⟩

/-- C6: write-then-parse is the identity on the record fields for the
event sequence {code-create at address 0x1000 = 4096, size 64, name
"foo"; code-move 0x1000 to 0x2000 = 8192}: the binary low-level log —
architecture string, 'C'-tagged record {name length, code address, code
size} followed by the name bytes and the instruction bytes, 'M'-tagged
record {from, to} — parses back into the same two structured records
with identical address, size and name fields, for every choice of the
64 instruction bytes. -/
theorem c6_lowlevel_roundtrip (instr : List Nat) (h : instr.length = 64) :
    LowLevel.parseLL
        (LowLevel.writeCodeMove
          (LowLevel.writeCodeCreate LowLevel.initFile 4096
            [102, 111, 111] instr) 4096 8192) =
      some ([120, 54, 52],
        [LowLevel.LLRecord.create 4096 64 [102, 111, 111] instr,
          LowLevel.LLRecord.move 4096 8192]) := by
  simp only [LowLevel.writeCodeCreate, LowLevel.writeCodeMove,
    LowLevel.initFile, LowLevel.archBytes, LowLevel.codeCreateStructBytes,
    LowLevel.codeMoveStructBytes, LowLevel.leBytes, h]
  norm_num
  simp only [LowLevel.parseLL, LowLevel.parseArch]
  norm_num [List.length_cons, List.length_append, h]
  norm_num [LowLevel.decodeRecords, LowLevel.leDecode]
  have ht : List.take 64
      (instr ++ [77, 0, 16, 0, 0, 0, 0, 0, 0, 0, 32, 0, 0, 0, 0, 0, 0]) =
      instr := by
    rw [← h]
    exact List.take_left instr _
  have hd : List.drop 64
      (instr ++ [77, 0, 16, 0, 0, 0, 0, 0, 0, 0, 32, 0, 0, 0, 0, 0, 0]) =
      [77, 0, 16, 0, 0, 0, 0, 0, 0, 0, 32, 0, 0, 0, 0, 0, 0] := by
    rw [← h]
    exact List.drop_left instr _
  rw [if_pos (by omega), ht, hd]
  norm_num [LowLevel.decodeRecords, LowLevel.leDecode]

/-- Witness for C6 with instruction bytes all equal to 7. -/
theorem c6_witness :
    (List.replicate 64 7).length = 64 ∧
      LowLevel.parseLL
          (LowLevel.writeCodeMove
            (LowLevel.writeCodeCreate LowLevel.initFile 4096
              [102, 111, 111] (List.replicate 64 7)) 4096 8192) =
        some ([120, 54, 52],
          [LowLevel.LLRecord.create 4096 64 [102, 111, 111]
              (List.replicate 64 7),
            LowLevel.LLRecord.move 4096 8192]) :=
  ⟨by decide, c6_lowlevel_roundtrip (List.replicate 64 7) (by decide)⟩
